import Mathlib

/-!
Verification of the temporal-lite workflow replay engine
(`apps/temporal-lite/index.js`).

The engine executes a workflow body whose every step goes through an
interceptor (`ActivityFromFunction` for activities, `workflowSleep` for
timers).  The interceptor consults a per-workflow history log at the
position given by a per-workflow cursor (`context[wid].seq`); a completed
entry whose recorded output is not `undefined` is a cache hit and is
returned without re-executing the operation.  A timer cache miss appends a
completed entry, registers a wake-up and aborts the pass by throwing a
`SleepError`, which the driver's `errorHandler` turns into "save the
history file and exit cleanly".

The shallow embedding below mirrors the JavaScript source: JS values are
`Value` (with an explicit `undef`), thrown errors are the `Except.error`
side of a computation, and each interceptor call is a pure function from
the pre-state (log and cursor) to a `StepResult` recording the post-state,
the returned-or-thrown result, the positions at which the underlying
operation was invoked, and the wake-ups registered.
-/

namespace TemporalLite

/-- A JavaScript value as far as the engine observes it.  `undef` is the
JS `undefined`, which both signals "no cached entry" and is a possible
activity result; `null` is the JS `null` stored as a timer's output.
`obj` covers the records the engine itself builds — the timer input
`{now, wakeUpAt}`, whose fields are timestamps — as an association list
of numeric fields; activity inputs and outputs are otherwise opaque to
the engine. -/
inductive Value where
  | undef : Value
  | null : Value
  | num : Int → Value
  | str : String → Value
  | bool : Bool → Value
  | obj : List (String × Int) → Value
deriving Repr, DecidableEq

/-- A history entry as built by the source (`ActivityHistory`): workflow
id, activity name, status string (`"running"` or `"completed"` in the
code), the input, and the output.  The source creates entries without an
`output` property; reading an absent JS property yields `undefined`, so
`output` defaults to `Value.undef`. -/
structure HistoryEntry where
  id : String
  name : String
  status : String
  input : Value
  output : Value := Value.undef
deriving Repr, DecidableEq

/-- The errors the engine can throw: the activity-name-mismatch error
thrown by `getCachedResult`, the `SleepError("SLEEP")` suspension signal
thrown by `workflowSleep`, and a failure of an underlying activity
carrying the thrown JS value. -/
inductive JsError where
  | nameMismatch : String → String → JsError
  | sleepSignal : JsError
  | stepError : Value → JsError
deriving Repr, DecidableEq

/-- The per-workflow mutable state an interceptor call touches: the
history log `historyStore[wid]` and the cursor `context[wid].seq`. -/
structure StepState where
  log : List HistoryEntry
  seq : Nat
deriving Repr, DecidableEq

deriving instance DecidableEq for Except

/-- The observable outcome of one interceptor call: the post-state, the
value returned (`Except.ok`) or error thrown (`Except.error`), the list of
cursor positions at which the underlying operation was invoked during the
call (so its length counts invocations), and the timestamps passed to
`ScheduleWakeUp`. -/
structure StepResult where
  state : StepState
  result : Except JsError Value
  trace : List Nat
  wakes : List Int
deriving Repr, DecidableEq

/-- `getCachedResult(wid, ctx, func)` from the source: if the cursor is
inside the log and the entry there is `"completed"`, check the recorded
name against the invoked name (throwing the mismatch error on
disagreement) and return the recorded output; otherwise return
`undefined`. -/
def getCachedResult (hs : List HistoryEntry) (ctxSeq : Nat) (funcName : String) :
    Except JsError Value :=
  match hs.get? ctxSeq with
  | some e =>
    if e.status = "completed" then
      if e.name ≠ funcName then Except.error (JsError.nameMismatch e.name funcName)
      else Except.ok e.output
    else Except.ok Value.undef
  | none => Except.ok Value.undef

/-- The function returned by `ActivityFromFunction(wid, func)`, applied to
`input` in state `s`.  It consults `getCachedResult` (whose mismatch error
propagates before the cursor moves), increments the cursor, returns a
cached value when it is not `undefined`, and otherwise pushes a
`"running"` entry, invokes `func`, and on success mutates that entry to
`"completed"` with the result.  On failure the thrown error propagates
with the pushed entry left `"running"`. -/
def ActivityFromFunction (wid funcName : String) (func : Value → Except Value Value)
    (input : Value) (s : StepState) : StepResult :=
  match getCachedResult s.log s.seq funcName with
  | Except.error e => ⟨s, Except.error e, [], []⟩
  | Except.ok lastReturn =>
    if lastReturn ≠ Value.undef then
      ⟨⟨s.log, s.seq + 1⟩, Except.ok lastReturn, [], []⟩
    else
      match func input with
      | Except.ok ret =>
        ⟨⟨s.log ++ [⟨wid, funcName, "completed", input, ret⟩], s.seq + 1⟩,
         Except.ok ret, [s.seq], []⟩
      | Except.error err =>
        ⟨⟨s.log ++ [⟨wid, funcName, "running", input, Value.undef⟩], s.seq + 1⟩,
         Except.error (JsError.stepError err), [s.seq], []⟩

/-- The entry a timer cache miss leaves in the log: pushed `"running"`
with input `{now, wakeUpAt: now + ms}` and mutated in place to
`"completed"` with output `null` before the suspension signal is
thrown. -/
def sleepEntry (wid : String) (now ms : Int) : HistoryEntry :=
  ⟨wid, "sleep", "completed",
   Value.obj [("now", now), ("wakeUpAt", now + ms)],
   Value.null⟩

/-- The `timer(ms)` function returned by `workflowSleep(wid)`, run at time
`now` in state `s`.  Cache consultation uses the reserved name `"sleep"`;
on a hit the cached value (always `null` for recorded timers) is returned.
On a miss it appends the timer entry, calls `ScheduleWakeUp(wid, now+ms)`
and throws `SleepError` — the underlying-operation trace stays empty
because a timer has no operation to run. -/
def workflowSleep (wid : String) (now ms : Int) (s : StepState) : StepResult :=
  match getCachedResult s.log s.seq "sleep" with
  | Except.error e => ⟨s, Except.error e, [], []⟩
  | Except.ok lastReturn =>
    if lastReturn ≠ Value.undef then
      ⟨⟨s.log, s.seq + 1⟩, Except.ok lastReturn, [], []⟩
    else
      ⟨⟨s.log ++ [sleepEntry wid now ms], s.seq + 1⟩,
       Except.error JsError.sleepSignal, [], [now + ms]⟩

/-- What the driver does at a pass boundary: `errorHandler` either saves
the history file and exits with code 0 (the `SleepError` branch) or just
logs the error and saves nothing. -/
inductive DriverAction where
  | persistAndExit : DriverAction
  | logErrorOnly : DriverAction
deriving Repr, DecidableEq

/-- `errorHandler(err)` from the source: a `SleepError` saves the history
and exits cleanly; every other error is only logged. -/
def errorHandler : JsError → DriverAction
  | JsError.sleepSignal => DriverAction.persistAndExit
  | JsError.nameMismatch _ _ => DriverAction.logErrorOnly
  | JsError.stepError _ => DriverAction.logErrorOnly

/-- One step of a straight-line deterministic workflow body: an activity
call (name, underlying function, input) or a `sleep(ms)` timer. -/
inductive WStep where
  | act : String → (Value → Except Value Value) → Value → WStep
  | sleep : Int → WStep

/-- The name under which a step is recorded in history. -/
def stepName : WStep → String
  | WStep.act n _ _ => n
  | WStep.sleep _ => "sleep"

/-- How one execution pass of the workflow body ends: the body returned
(the promise resolved), the suspension signal unwound it, or another error
unwound it. -/
inductive PassOutcome where
  | completed : PassOutcome
  | suspended : PassOutcome
  | failed : JsError → PassOutcome
deriving Repr, DecidableEq

/-- The driver-visible result of one pass: final state, outcome, the
concatenated invocation trace and wake registrations of its steps. -/
structure PassResult where
  state : StepState
  outcome : PassOutcome
  trace : List Nat
  wakes : List Int
deriving Repr, DecidableEq

/-- Dispatch one workflow step through the matching interceptor. -/
def stepCall (wid : String) (now : Int) : WStep → StepState → StepResult
  | WStep.act n f input, s => ActivityFromFunction wid n f input s
  | WStep.sleep ms, s => workflowSleep wid now ms s

/-- Run the workflow body sequentially from state `s`: each step goes
through its interceptor; an `ok` result continues with the next step, the
sleep signal ends the pass as `suspended`, any other thrown error ends it
as `failed` (the body `NotifyWorkflow` has no try/catch, so step errors
unwind to the driver). -/
def runPass (wid : String) (now : Int) : List WStep → StepState → PassResult
  | [], s => ⟨s, PassOutcome.completed, [], []⟩
  | st :: rest, s =>
    let r := stepCall wid now st s
    match r.result with
    | Except.ok _ =>
      let r2 := runPass wid now rest r.state
      ⟨r2.state, r2.outcome, r.trace ++ r2.trace, r.wakes ++ r2.wakes⟩
    | Except.error JsError.sleepSignal => ⟨r.state, PassOutcome.suspended, r.trace, r.wakes⟩
    | Except.error e => ⟨r.state, PassOutcome.failed e, r.trace, r.wakes⟩

/-- What the driver persists at each pass boundary, as wired in the
source: `NotifyWorkflow(...).catch(errorHandler)` runs no handler at all
when the body returns normally (nothing is saved and no completion status
is recorded anywhere), and routes every rejection through `errorHandler`.
A suspended pass is the `SleepError` rejection. -/
def passBoundaryAction : PassOutcome → Option DriverAction
  | PassOutcome.completed => none
  | PassOutcome.suspended => some (errorHandler JsError.sleepSignal)
  | PassOutcome.failed e => some (errorHandler e)

/-- The Start-then-wake-driven-Resume cycle: `StartWorkflow` runs the body
with `seq = 0` on the initial log; whenever a pass suspends, the
registered wake-up later calls `ResumeWorkflow`, which resets `seq` to 0
over the persisted log and re-runs the same body.  `times` supplies the
clock reading of each successive pass; the result is the final log, the
final outcome, and the invocation trace concatenated over all passes.  An
empty `times` with a pass still pending reports `suspended`. -/
def driverLoop (wid : String) (w : List WStep) :
    List Int → List HistoryEntry → List HistoryEntry × PassOutcome × List Nat
  | [], log => (log, PassOutcome.suspended, [])
  | now :: later, log =>
    let r := runPass wid now w ⟨log, 0⟩
    match r.outcome with
    | PassOutcome.suspended =>
      let rest := driverLoop wid w later r.state.log
      (rest.1, rest.2.1, r.trace ++ rest.2.2)
    | o => (r.state.log, o, r.trace)

/-- The history entry replay expects for a step: recorded as completed,
under the step's name, with an output distinguishable from `undefined`. -/
def matchesEntry (st : WStep) (e : HistoryEntry) : Prop :=
  e.status = "completed" ∧ e.name = stepName st ∧ e.output ≠ Value.undef

/-- A step whose fresh execution succeeds with a result the cache can
later recognise: activities whose function returns (does not throw) a
value other than `undefined`; timers always qualify. -/
def goodStep : WStep → Prop
  | WStep.act _ f input => ∃ r, f input = Except.ok r ∧ r ≠ Value.undef
  | WStep.sleep _ => True

/-- Zero-based positions of the activity steps of a body, counting from
`k`: the positions at which an underlying operation exists to invoke. -/
def actIndicesFrom (k : Nat) : List WStep → List Nat
  | [] => []
  | WStep.act _ _ _ :: rest => k :: actIndicesFrom (k + 1) rest
  | WStep.sleep _ :: rest => actIndicesFrom (k + 1) rest

/-- How many steps a pass starting at the cache frontier consumes before
ending: everything up to and including the first timer, or the whole body
when no timer remains. -/
def passConsumes : List WStep → Nat
  | [] => 0
  | WStep.sleep _ :: _ => 1
  | WStep.act _ _ _ :: rest => 1 + passConsumes rest

/-- Whether a pass starting at the cache frontier suspends, i.e. whether
a timer remains in the body. -/
def passSuspends : List WStep → Bool
  | [] => false
  | WStep.sleep _ :: _ => true
  | WStep.act _ _ _ :: rest => passSuspends rest

/-- Number of timer steps in a body. -/
def sleepCount : List WStep → Nat
  | [] => 0
  | WStep.sleep _ :: rest => sleepCount rest + 1
  | WStep.act _ _ _ :: rest => sleepCount rest

/-- Recognises the activity-name-mismatch (Determinism Violation) error
among interceptor results. -/
def isNameMismatch : Except JsError Value → Bool
  | Except.error (JsError.nameMismatch _ _) => true
  | _ => false

/-- A completed entry under the cursor with the invoked name yields its
recorded output from the cache. -/
theorem getCachedResult_hit (hs : List HistoryEntry) (n : Nat) (fn : String)
    (e : HistoryEntry) (he : hs.get? n = some e) (hst : e.status = "completed")
    (hn : e.name = fn) :
    getCachedResult hs n fn = Except.ok e.output := by
  unfold getCachedResult
  rw [he]
  simp [hst, hn]

/-- A completed entry under the cursor with a different name makes the
cache lookup throw the name-mismatch error. -/
theorem getCachedResult_mismatch (hs : List HistoryEntry) (n : Nat) (fn : String)
    (e : HistoryEntry) (he : hs.get? n = some e) (hst : e.status = "completed")
    (hn : e.name ≠ fn) :
    getCachedResult hs n fn = Except.error (JsError.nameMismatch e.name fn) := by
  unfold getCachedResult
  rw [he]
  simp [hst, hn]

/-- A cursor at or past the end of the log always misses the cache. -/
theorem getCachedResult_at_end (hs : List HistoryEntry) (n : Nat) (fn : String)
    (h : hs.length ≤ n) : getCachedResult hs n fn = Except.ok Value.undef := by
  unfold getCachedResult
  rw [List.get?_eq_none.mpr h]

/-- Cache-hit behaviour of the activity interceptor: with a completed,
name-matching entry whose output is not `undefined` under the cursor, the
call returns the recorded output, moves the cursor, leaves the log alone,
invokes nothing and wakes nothing. -/
theorem activity_hit (wid fn : String) (f : Value → Except Value Value) (input : Value)
    (s : StepState) (e : HistoryEntry)
    (he : s.log.get? s.seq = some e) (hst : e.status = "completed")
    (hn : e.name = fn) (ho : e.output ≠ Value.undef) :
    ActivityFromFunction wid fn f input s = ⟨⟨s.log, s.seq + 1⟩, Except.ok e.output, [], []⟩ := by
  unfold ActivityFromFunction
  rw [getCachedResult_hit s.log s.seq fn e he hst hn]
  simp [ho]

/-- Cache-hit behaviour of the timer interceptor: a completed entry named
`"sleep"` with a non-`undefined` output is returned like any other cached
step, with no wake registration and no suspension. -/
theorem sleep_hit (wid : String) (now ms : Int) (s : StepState) (e : HistoryEntry)
    (he : s.log.get? s.seq = some e) (hst : e.status = "completed")
    (hn : e.name = "sleep") (ho : e.output ≠ Value.undef) :
    workflowSleep wid now ms s = ⟨⟨s.log, s.seq + 1⟩, Except.ok e.output, [], []⟩ := by
  unfold workflowSleep
  rw [getCachedResult_hit s.log s.seq "sleep" e he hst hn]
  simp [ho]

/-- Cache-miss behaviour of the activity interceptor when the operation
succeeds: the cursor moves, a completed entry holding the result is
appended, the result is returned, and the operation was invoked exactly
once, at the pre-call cursor position. -/
theorem activity_miss_ok (wid fn : String) (f : Value → Except Value Value) (input : Value)
    (s : StepState) (r : Value)
    (hmiss : getCachedResult s.log s.seq fn = Except.ok Value.undef)
    (hok : f input = Except.ok r) :
    ActivityFromFunction wid fn f input s =
      ⟨⟨s.log ++ [⟨wid, fn, "completed", input, r⟩], s.seq + 1⟩,
       Except.ok r, [s.seq], []⟩ := by
  unfold ActivityFromFunction
  rw [hmiss]
  simp [hok]

/-- Cache-miss behaviour of the activity interceptor when the operation
throws: the entry pushed before the invocation stays `"running"` and the
error propagates wrapped as a step error. -/
theorem activity_miss_err (wid fn : String) (f : Value → Except Value Value) (input : Value)
    (s : StepState) (err : Value)
    (hmiss : getCachedResult s.log s.seq fn = Except.ok Value.undef)
    (herr : f input = Except.error err) :
    ActivityFromFunction wid fn f input s =
      ⟨⟨s.log ++ [⟨wid, fn, "running", input, Value.undef⟩], s.seq + 1⟩,
       Except.error (JsError.stepError err), [s.seq], []⟩ := by
  unfold ActivityFromFunction
  rw [hmiss]
  simp [herr]

/-- Cache-miss behaviour of the timer interceptor: the completed timer
entry is appended, a wake-up is registered for `now + ms`, and the
suspension signal is thrown; no underlying operation is invoked. -/
theorem sleep_miss (wid : String) (now ms : Int) (s : StepState)
    (hmiss : getCachedResult s.log s.seq "sleep" = Except.ok Value.undef) :
    workflowSleep wid now ms s =
      ⟨⟨s.log ++ [sleepEntry wid now ms], s.seq + 1⟩,
       Except.error JsError.sleepSignal, [], [now + ms]⟩ := by
  unfold workflowSleep
  rw [hmiss]
  simp

/-- Cache-hit behaviour of either interceptor, keyed by the step's
recorded name. -/
theorem stepCall_hit (wid : String) (now : Int) (st : WStep) (s : StepState)
    (e : HistoryEntry) (he : s.log.get? s.seq = some e) (hst : e.status = "completed")
    (hn : e.name = stepName st) (ho : e.output ≠ Value.undef) :
    stepCall wid now st s = ⟨⟨s.log, s.seq + 1⟩, Except.ok e.output, [], []⟩ := by
  cases st with
  | act n f input => exact activity_hit wid n f input s e he hst hn ho
  | sleep ms => exact sleep_hit wid now ms s e he hst hn ho

/-- A pass over a body whose leading steps are all satisfied by the log
segment from the cursor to the end of the log behaves exactly like a pass
over the remaining steps started at the end of the log: cache hits
contribute nothing to the trace, the wake list, or the log. -/
theorem runPass_skip (wid : String) (now : Int) (hits : List WStep) :
    ∀ (rest : List WStep) (s : StepState),
      s.log.length = s.seq + hits.length →
      List.Forall₂ matchesEntry hits (s.log.drop s.seq) →
      runPass wid now (hits ++ rest) s = runPass wid now rest ⟨s.log, s.log.length⟩ := by
  induction hits with
  | nil =>
    intro rest s hlen _
    simp only [List.length_nil, Nat.add_zero] at hlen
    cases s with
    | mk log seq =>
      simp only at hlen
      simp only [List.nil_append]
      rw [hlen]
  | cons h t ih =>
    intro rest s hlen hm
    have hdrop : ∃ e es, s.log.drop s.seq = e :: es := by
      cases hd : s.log.drop s.seq with
      | nil => rw [hd] at hm; exact absurd hm (by simp)
      | cons e es => exact ⟨e, es, rfl⟩
    obtain ⟨e, es, hd⟩ := hdrop
    rw [hd] at hm
    rcases List.forall₂_cons.mp hm with ⟨⟨hst, hn, ho⟩, hm'⟩
    have he : s.log.get? s.seq = some e := by
      rw [List.get?_eq_getElem?, ← List.head?_drop, hd]
      rfl
    have hcall := stepCall_hit wid now h s e he hst hn ho
    have hstep : runPass wid now ((h :: t) ++ rest) s =
        runPass wid now (t ++ rest) ⟨s.log, s.seq + 1⟩ := by
      show runPass wid now (h :: (t ++ rest)) s = _
      simp only [runPass, hcall, List.nil_append]
    rw [hstep]
    have hlen' : (⟨s.log, s.seq + 1⟩ : StepState).log.length =
        (⟨s.log, s.seq + 1⟩ : StepState).seq + t.length := by
      simp only [List.length_cons] at hlen
      simp only
      omega
    have hm'' : List.Forall₂ matchesEntry t
        ((⟨s.log, s.seq + 1⟩ : StepState).log.drop (⟨s.log, s.seq + 1⟩ : StepState).seq) := by
      have hes : s.log.drop (s.seq + 1) = es := by
        rw [← List.tail_drop, hd]
        rfl
      simpa [hes] using hm'
    exact ih rest ⟨s.log, s.seq + 1⟩ hlen' hm''

/-- A pass never consumes more steps than the body has. -/
theorem passConsumes_le (steps : List WStep) : passConsumes steps ≤ steps.length := by
  induction steps with
  | nil => simp [passConsumes]
  | cons h t ih =>
    cases h with
    | act n f input =>
      simp only [passConsumes, List.length_cons]
      omega
    | sleep ms => simp [passConsumes]

/-- When no timer remains, a pass consumes the whole body. -/
theorem passConsumes_of_not_suspends (steps : List WStep)
    (h : passSuspends steps = false) : passConsumes steps = steps.length := by
  induction steps with
  | nil => rfl
  | cons hd t ih =>
    cases hd with
    | act n f input =>
      simp only [passSuspends] at h
      simp only [passConsumes, List.length_cons, ih h]
      omega
    | sleep ms => simp [passSuspends] at h

/-- A suspending pass consumes exactly one timer: the timers after the
consumed prefix are all the timers but one. -/
theorem sleepCount_after_consumes (steps : List WStep)
    (h : passSuspends steps = true) :
    sleepCount (steps.drop (passConsumes steps)) + 1 = sleepCount steps := by
  induction steps with
  | nil => simp [passSuspends] at h
  | cons hd t ih =>
    cases hd with
    | act n f input =>
      simp only [passSuspends] at h
      have hc : 1 + passConsumes t = passConsumes t + 1 := Nat.add_comm _ _
      simpa [passConsumes, sleepCount, hc, List.drop_succ_cons] using ih h
    | sleep ms => simp [passConsumes, sleepCount]

/-- Activity positions split across a concatenation of bodies. -/
theorem actIndicesFrom_append (l1 : List WStep) :
    ∀ (k : Nat) (l2 : List WStep),
      actIndicesFrom k (l1 ++ l2) = actIndicesFrom k l1 ++ actIndicesFrom (k + l1.length) l2 := by
  induction l1 with
  | nil => intro k l2; simp [actIndicesFrom]
  | cons hd t ih =>
    intro k l2
    have harith : k + 1 + t.length = k + (t.length + 1) := by omega
    cases hd with
    | act n f input =>
      simp only [List.cons_append, actIndicesFrom, List.append_eq, ih (k + 1) l2,
        List.length_cons, harith, List.cons_append]
    | sleep ms =>
      simp only [List.cons_append, actIndicesFrom, List.append_eq, ih (k + 1) l2,
        List.length_cons, harith]

/-- Every recorded activity position is at least the starting offset. -/
theorem actIndicesFrom_ge (w : List WStep) :
    ∀ (k : Nat) (m : Nat), m ∈ actIndicesFrom k w → k ≤ m := by
  induction w with
  | nil => intro k m hm; simp [actIndicesFrom] at hm
  | cons hd t ih =>
    intro k m hm
    cases hd with
    | act n f input =>
      simp only [actIndicesFrom, List.mem_cons] at hm
      rcases hm with rfl | hm
      · exact Nat.le_refl m
      · exact Nat.le_of_succ_le (ih (k + 1) m hm)
    | sleep ms =>
      simp only [actIndicesFrom] at hm
      exact Nat.le_of_succ_le (ih (k + 1) m hm)

/-- The activity positions of a body are pairwise distinct: no step is
counted twice. -/
theorem actIndicesFrom_nodup (w : List WStep) : ∀ (k : Nat), (actIndicesFrom k w).Nodup := by
  induction w with
  | nil => intro k; simp [actIndicesFrom]
  | cons hd t ih =>
    intro k
    cases hd with
    | act n f input =>
      simp only [actIndicesFrom, List.nodup_cons]
      refine ⟨fun hmem => ?_, ih (k + 1)⟩
      have := actIndicesFrom_ge t (k + 1) k hmem
      omega
    | sleep ms =>
      simpa [actIndicesFrom] using ih (k + 1)

/-- Fresh execution: a pass whose cursor starts at the end of the log and
whose remaining steps are all good runs up to and including the first
timer (or to the end when no timer remains), appending one matching
completed entry per consumed step, invoking the operations of exactly the
consumed activity steps at their own positions, and suspending exactly
when a timer was consumed. -/
theorem runPass_fresh (wid : String) (now : Int) (steps : List WStep) :
    ∀ (s : StepState), s.seq = s.log.length →
      (∀ st ∈ steps, goodStep st) →
      ∃ news wk,
        runPass wid now steps s =
          ⟨⟨s.log ++ news, s.seq + passConsumes steps⟩,
           (if passSuspends steps then PassOutcome.suspended else PassOutcome.completed),
           actIndicesFrom s.seq (steps.take (passConsumes steps)), wk⟩
        ∧ List.Forall₂ matchesEntry (steps.take (passConsumes steps)) news := by
  induction steps with
  | nil =>
    intro s _ _
    refine ⟨[], [], ?_, List.Forall₂.nil⟩
    simp [runPass, passConsumes, passSuspends, actIndicesFrom]
  | cons hd t ih =>
    intro s hend hg
    have hmiss : ∀ fn, getCachedResult s.log s.seq fn = Except.ok Value.undef := by
      intro fn
      exact getCachedResult_at_end s.log s.seq fn (Nat.le_of_eq hend.symm)
    cases hd with
    | act n f input =>
      obtain ⟨r, hok, hr⟩ := hg (WStep.act n f input) (List.mem_cons_self _ _)
      have hcall := activity_miss_ok wid n f input s r (hmiss n) hok
      set s' : StepState := ⟨s.log ++ [⟨wid, n, "completed", input, r⟩], s.seq + 1⟩ with hs'
      have hstep : runPass wid now (WStep.act n f input :: t) s =
          ⟨(runPass wid now t s').state, (runPass wid now t s').outcome,
           [s.seq] ++ (runPass wid now t s').trace, [] ++ (runPass wid now t s').wakes⟩ := by
        simp only [runPass, stepCall, hcall]
      have hend' : s'.seq = s'.log.length := by
        simp [hs', hend]
      have hg' : ∀ st ∈ t, goodStep st := fun st hst => hg st (List.mem_cons_of_mem _ hst)
      obtain ⟨news, wk, hrun, hforall⟩ := ih s' hend' hg'
      have hc : 1 + passConsumes t = passConsumes t + 1 := Nat.add_comm _ _
      have htake : (WStep.act n f input :: t).take (passConsumes (WStep.act n f input :: t)) =
          WStep.act n f input :: t.take (passConsumes t) := by
        simp only [passConsumes, hc, List.take_succ_cons]
      refine ⟨⟨wid, n, "completed", input, r⟩ :: news, wk, ?_, ?_⟩
      · rw [hstep]
        simp only [hrun, hs', htake]
        simp only [passConsumes, passSuspends, actIndicesFrom]
        refine congrArg₂ (fun a b => PassResult.mk ⟨a, b⟩ _ _ _) ?_ ?_
        · simp
        · omega
      · rw [htake]
        exact List.Forall₂.cons ⟨rfl, rfl, hr⟩ hforall
    | sleep ms =>
      have hcall := sleep_miss wid now ms s (hmiss "sleep")
      refine ⟨[sleepEntry wid now ms], [now + ms], ?_, ?_⟩
      · simp only [runPass, stepCall, hcall]
        simp [passConsumes, passSuspends, actIndicesFrom]
      · simp only [passConsumes, List.take_succ_cons, List.take_zero]
        exact List.Forall₂.cons ⟨rfl, rfl, by simp [sleepEntry]⟩ List.Forall₂.nil

/-- Start-plus-resume completion: when the persisted log matches an
initial segment `done` of the body, every remaining step is good, and
more clock readings are supplied than timers remain, the Start/Resume
cycle completes and invokes the underlying operations of exactly the
remaining activity steps, each at its own position, each once. -/
theorem driverLoop_completes (wid : String) (w : List WStep) :
    ∀ (times : List Int) (done rest : List WStep) (log : List HistoryEntry),
      w = done ++ rest →
      List.Forall₂ matchesEntry done log →
      (∀ st ∈ rest, goodStep st) →
      sleepCount rest < times.length →
      ∃ finalLog,
        driverLoop wid w times log =
          (finalLog, PassOutcome.completed, actIndicesFrom done.length rest) := by
  intro times
  induction times with
  | nil =>
    intro done rest log _ _ _ hcnt
    exact absurd hcnt (by simp)
  | cons now later ih =>
    intro done rest log hw hm hg hcnt
    have hlendone : done.length = log.length := List.Forall₂.length_eq hm
    have hskip : runPass wid now w ⟨log, 0⟩ =
        runPass wid now rest ⟨log, log.length⟩ := by
      rw [hw]
      exact runPass_skip wid now done rest ⟨log, 0⟩ (by simpa using hlendone.symm)
        (by simpa using hm)
    obtain ⟨news, wk, hrun, hforall⟩ :=
      runPass_fresh wid now rest ⟨log, log.length⟩ rfl hg
    have hnews_len : news.length = passConsumes rest := by
      have h1 := List.Forall₂.length_eq hforall
      have h2 : (rest.take (passConsumes rest)).length = passConsumes rest := by
        simp [List.length_take, Nat.min_eq_left (passConsumes_le rest)]
      omega
    cases hsusp : passSuspends rest with
    | false =>
      have hcons : passConsumes rest = rest.length := passConsumes_of_not_suspends rest hsusp
      refine ⟨log ++ news, ?_⟩
      show driverLoop wid w (now :: later) log = _
      simp only [driverLoop, hskip, hrun, hsusp]
      simp [hcons, hlendone]
    | true =>
      set c := passConsumes rest with hc
      have hrest_split : rest = rest.take c ++ rest.drop c := (List.take_append_drop c rest).symm
      have hw' : w = (done ++ rest.take c) ++ rest.drop c := by
        rw [hw, List.append_assoc, ← hrest_split]
      have hm' : List.Forall₂ matchesEntry (done ++ rest.take c) (log ++ news) :=
        List.rel_append hm hforall
      have hg' : ∀ st ∈ rest.drop c, goodStep st :=
        fun st hst => hg st (List.drop_subset c rest hst)
      have hcnt' : sleepCount (rest.drop c) < later.length := by
        have hsc := sleepCount_after_consumes rest hsusp
        rw [← hc] at hsc
        simp only [List.length_cons] at hcnt
        omega
      obtain ⟨finalLog, hrec⟩ := ih (done ++ rest.take c) (rest.drop c) (log ++ news) hw' hm' hg' hcnt'
      refine ⟨finalLog, ?_⟩
      have htakec : (rest.take c).length = c := by
        simp [List.length_take, Nat.min_eq_left (passConsumes_le rest)]
      show driverLoop wid w (now :: later) log = _
      simp only [driverLoop, hskip, hrun, hsusp]
      simp only [hrec]
      have htr : actIndicesFrom log.length (rest.take c) ++
          actIndicesFrom (done ++ rest.take c).length (rest.drop c) =
          actIndicesFrom done.length rest := by
        rw [List.length_append, hlendone, ← actIndicesFrom_append, ← hrest_split]
      rw [htr]
      simp

/-- The cache lookup can only throw the name-mismatch error. -/
theorem getCachedResult_error_form (hs : List HistoryEntry) (n : Nat) (fn : String)
    (e : JsError) (h : getCachedResult hs n fn = Except.error e) :
    ∃ a b, e = JsError.nameMismatch a b := by
  unfold getCachedResult at h
  split at h
  · split at h
    · split at h
      · exact ⟨_, _, ((Except.error.injEq _ _).mp h.symm)⟩
      · cases h
    · cases h
  · cases h

/-- Any activity interceptor call that does not throw the name-mismatch
error moves the cursor forward by exactly one. -/
theorem activity_seq_increment (wid fn : String) (f : Value → Except Value Value)
    (input : Value) (s : StepState)
    (h : isNameMismatch (ActivityFromFunction wid fn f input s).result = false) :
    (ActivityFromFunction wid fn f input s).state.seq = s.seq + 1 := by
  cases hc : getCachedResult s.log s.seq fn with
  | error e =>
    obtain ⟨a, b, rfl⟩ := getCachedResult_error_form s.log s.seq fn e hc
    simp [ActivityFromFunction, hc, isNameMismatch] at h
  | ok v =>
    simp only [ActivityFromFunction, hc]
    by_cases hv : v = Value.undef
    · simp only [hv, ne_eq, not_true_eq_false, if_false]
      cases hf : f input <;> rfl
    · simp only [ne_eq, hv, not_false_eq_true, if_true]

/-- Any timer interceptor call that does not throw the name-mismatch
error moves the cursor forward by exactly one. -/
theorem sleep_seq_increment (wid : String) (now ms : Int) (s : StepState)
    (h : isNameMismatch (workflowSleep wid now ms s).result = false) :
    (workflowSleep wid now ms s).state.seq = s.seq + 1 := by
  cases hc : getCachedResult s.log s.seq "sleep" with
  | error e =>
    obtain ⟨a, b, rfl⟩ := getCachedResult_error_form s.log s.seq "sleep" e hc
    simp [workflowSleep, hc, isNameMismatch] at h
  | ok v =>
    simp only [workflowSleep, hc]
    by_cases hv : v = Value.undef
    · simp only [hv, ne_eq, not_true_eq_false, if_false]
    · simp only [ne_eq, hv, not_false_eq_true, if_true]

/-- Demo activity for witnesses: always succeeds with 2 (the first step
of the spec's concrete scenario). -/
def demoF : Value → Except Value Value := fun _ => Except.ok (Value.num 2)

/-- Demo activity for witnesses: always succeeds with 4 (the last step of
the spec's concrete scenario). -/
def demoG : Value → Except Value Value := fun _ => Except.ok (Value.num 4)

/-- Demo activity whose invocation throws the value `"boom"`. -/
def demoFail : Value → Except Value Value := fun _ => Except.error (Value.str "boom")

/-- Demo activity that returns (JS) `undefined`. -/
def demoUndef : Value → Except Value Value := fun _ => Except.ok Value.undef

/-- The spec's concrete scenario body: `stepA(1)`, `sleep(5000)`,
`stepB(2)`. -/
def demoW : List WStep :=
  [WStep.act "stepA" demoF (Value.num 1), WStep.sleep 5000,
   WStep.act "stepB" demoG (Value.num 2)]

/-- A one-activity body whose operation returns `undefined`. -/
def wU : List WStep := [WStep.act "u" demoUndef Value.null]

/-- Completed history entry for `stepA` with output 2. -/
def entryA : HistoryEntry := ⟨"wf", "stepA", "completed", Value.num 1, Value.num 2⟩

/-- Completed history entry for `stepB` with output 4. -/
def entryB : HistoryEntry := ⟨"wf", "stepB", "completed", Value.num 2, Value.num 4⟩

/-- Completed history entry whose recorded output is `undefined`. -/
def entryU : HistoryEntry := ⟨"w", "u", "completed", Value.null, Value.undef⟩

/-- The full log of a completed run of the scenario body. -/
def demoLogFull : List HistoryEntry := [entryA, sleepEntry "wf" 0 5000, entryB]

/-- C1, counterexample: the claim as stated fails when the recorded
output of a completed, name-matching entry is `undefined` — at this
concrete input the interceptor invokes the operation (trace `[0]`) and
appends a second entry instead of returning the recorded output without
invoking. -/
theorem c1_counterexample :
    entryU.status = "completed" ∧ entryU.name = "u"
    ∧ (ActivityFromFunction "w" "u" demoUndef Value.null ⟨[entryU], 0⟩).trace = [0]
    ∧ (ActivityFromFunction "w" "u" demoUndef Value.null ⟨[entryU], 0⟩).state.log.length = 2 := by
  decide

/-- C1 (amended): provided the recorded output is not `undefined`, a
completed, name-matching entry at the cursor makes the interceptor return
the recorded output without invoking the operation; consequently, for a
deterministic straight-line workflow all of whose operations succeed with
non-`undefined` results, a Start pass followed by resume passes (one per
timer) completes with the underlying operations invoked exactly once per
activity step — the invocation trace lists each activity position exactly
once. -/
theorem c1_cached_steps_and_exactly_once :
    (∀ (wid fn : String) (f : Value → Except Value Value) (input : Value) (s : StepState)
        (e : HistoryEntry), s.log.get? s.seq = some e → e.status = "completed" →
        e.name = fn → e.output ≠ Value.undef →
        ActivityFromFunction wid fn f input s =
          ⟨⟨s.log, s.seq + 1⟩, Except.ok e.output, [], []⟩)
    ∧ (∀ (wid : String) (w : List WStep) (times : List Int),
        (∀ st ∈ w, goodStep st) → sleepCount w < times.length →
        (∃ finalLog, driverLoop wid w times [] =
          (finalLog, PassOutcome.completed, actIndicesFrom 0 w))
        ∧ (actIndicesFrom 0 w).Nodup) := by
  constructor
  · exact activity_hit
  · intro wid w times hg hcnt
    refine ⟨?_, actIndicesFrom_nodup w 0⟩
    have h := driverLoop_completes wid w times [] w [] (by simp) List.Forall₂.nil hg hcnt
    simpa using h

/-- Witness for C1: the amended theorem applied to a cache hit on
`stepA`'s recorded entry, and to the concrete scenario body run with two
clock readings. -/
theorem c1_witness :
    (ActivityFromFunction "wf" "stepA" demoF (Value.num 1) ⟨[entryA], 0⟩ =
      ⟨⟨[entryA], 1⟩, Except.ok (Value.num 2), [], []⟩)
    ∧ ((∃ finalLog, driverLoop "wf" demoW [0, 9000] [] =
        (finalLog, PassOutcome.completed, actIndicesFrom 0 demoW))
      ∧ (actIndicesFrom 0 demoW).Nodup) := by
  constructor
  · exact c1_cached_steps_and_exactly_once.1 "wf" "stepA" demoF (Value.num 1)
      ⟨[entryA], 0⟩ entryA rfl rfl rfl (by decide)
  · refine c1_cached_steps_and_exactly_once.2 "wf" demoW [0, 9000] ?_ (by decide)
    intro st hst
    simp only [demoW, List.mem_cons, List.not_mem_nil, or_false] at hst
    rcases hst with rfl | rfl | rfl
    · exact ⟨Value.num 2, rfl, by decide⟩
    · trivial
    · exact ⟨Value.num 4, rfl, by decide⟩

/-- C2: a completed entry at the cursor whose recorded name differs from
the invoked step's name makes the cache lookup, and hence the
interceptor, throw the name-mismatch (Determinism Violation) error
naming the recorded and invoked step; the state is untouched, no result
is substituted, and nothing is invoked. -/
theorem c2_determinism_violation :
    ∀ (wid fn : String) (f : Value → Except Value Value) (input : Value) (s : StepState)
      (e : HistoryEntry), s.log.get? s.seq = some e → e.status = "completed" →
      e.name ≠ fn →
      getCachedResult s.log s.seq fn = Except.error (JsError.nameMismatch e.name fn)
      ∧ ActivityFromFunction wid fn f input s =
          ⟨s, Except.error (JsError.nameMismatch e.name fn), [], []⟩ := by
  intro wid fn f input s e he hst hn
  have hc := getCachedResult_mismatch s.log s.seq fn e he hst hn
  refine ⟨hc, ?_⟩
  simp only [ActivityFromFunction, hc]

/-- Witness for C2: replaying `stepB` against `stepA`'s recorded entry
fails with the Determinism Violation error. -/
theorem c2_witness :
    getCachedResult [entryA] 0 "stepB" =
      Except.error (JsError.nameMismatch "stepA" "stepB")
    ∧ ActivityFromFunction "wf" "stepB" demoG (Value.num 2) ⟨[entryA], 0⟩ =
      ⟨⟨[entryA], 0⟩, Except.error (JsError.nameMismatch "stepA" "stepB"), [], []⟩ :=
  c2_determinism_violation "wf" "stepB" demoG (Value.num 2) ⟨[entryA], 0⟩ entryA
    rfl rfl (by decide)

/-- C3: on a timer cache miss the timer appends the entry recording
`{now, wakeUpAt: now + ms}` that ends completed with a null output,
registers a wake-up at `now + ms`, and throws the suspension signal —
and a pass hitting such a timer suspends there, executing none of the
remaining steps (empty trace beyond the timer, no further log growth). -/
theorem c3_timer_miss_suspends :
    ∀ (wid : String) (now ms : Int) (s : StepState) (rest : List WStep),
      getCachedResult s.log s.seq "sleep" = Except.ok Value.undef →
      workflowSleep wid now ms s =
        ⟨⟨s.log ++ [sleepEntry wid now ms], s.seq + 1⟩,
         Except.error JsError.sleepSignal, [], [now + ms]⟩
      ∧ runPass wid now (WStep.sleep ms :: rest) s =
        ⟨⟨s.log ++ [sleepEntry wid now ms], s.seq + 1⟩,
         PassOutcome.suspended, [], [now + ms]⟩ := by
  intro wid now ms s rest hmiss
  have h := sleep_miss wid now ms s hmiss
  refine ⟨h, ?_⟩
  simp only [runPass, stepCall, h]

/-- Witness for C3: the first sleep of a fresh pass suspends without
executing the following activity. -/
theorem c3_witness :
    workflowSleep "wf" 0 3000 ⟨[], 0⟩ =
      ⟨⟨[sleepEntry "wf" 0 3000], 1⟩, Except.error JsError.sleepSignal, [], [3000]⟩
    ∧ runPass "wf" 0 [WStep.sleep 3000, WStep.act "stepB" demoG (Value.num 2)] ⟨[], 0⟩ =
      ⟨⟨[sleepEntry "wf" 0 3000], 1⟩, PassOutcome.suspended, [], [3000]⟩ :=
  c3_timer_miss_suspends "wf" 0 3000 ⟨[], 0⟩ [WStep.act "stepB" demoG (Value.num 2)] rfl

/-- C4: a completed timer entry (recorded with output `null`) at the
cursor is treated like any cached step: the timer returns immediately,
registers no wake-up and raises no suspension, and the pass continues
with exactly the steps after the timer. -/
theorem c4_timer_replay_fast_forward :
    ∀ (wid : String) (now ms : Int) (s : StepState) (e : HistoryEntry) (rest : List WStep),
      s.log.get? s.seq = some e → e.status = "completed" → e.name = "sleep" →
      e.output = Value.null →
      workflowSleep wid now ms s = ⟨⟨s.log, s.seq + 1⟩, Except.ok Value.null, [], []⟩
      ∧ runPass wid now (WStep.sleep ms :: rest) s =
          runPass wid now rest ⟨s.log, s.seq + 1⟩ := by
  intro wid now ms s e rest he hst hn ho
  have h := sleep_hit wid now ms s e he hst hn (by simp [ho])
  rw [ho] at h
  refine ⟨h, ?_⟩
  simp only [runPass, stepCall, h, List.nil_append]

/-- Witness for C4: resuming past the recorded sleep of the scenario
continues directly with `stepB`. -/
theorem c4_witness :
    workflowSleep "wf" 9000 5000 ⟨[entryA, sleepEntry "wf" 0 5000], 1⟩ =
      ⟨⟨[entryA, sleepEntry "wf" 0 5000], 2⟩, Except.ok Value.null, [], []⟩
    ∧ runPass "wf" 9000 [WStep.sleep 5000, WStep.act "stepB" demoG (Value.num 2)]
        ⟨[entryA, sleepEntry "wf" 0 5000], 1⟩ =
      runPass "wf" 9000 [WStep.act "stepB" demoG (Value.num 2)]
        ⟨[entryA, sleepEntry "wf" 0 5000], 2⟩ :=
  c4_timer_replay_fast_forward "wf" 9000 5000 ⟨[entryA, sleepEntry "wf" 0 5000], 1⟩
    (sleepEntry "wf" 0 5000) [WStep.act "stepB" demoG (Value.num 2)] rfl rfl rfl rfl

/-- C5, counterexample: when the underlying operation fails, the
interceptor propagates the error but never sets any entry to a
`"failed"` status — at this concrete input the pushed entry stays
`"running"`. -/
theorem c5_counterexample :
    (ActivityFromFunction "w" "f" demoFail (Value.num 1) ⟨[], 0⟩).result =
      Except.error (JsError.stepError (Value.str "boom"))
    ∧ (∀ e ∈ (ActivityFromFunction "w" "f" demoFail (Value.num 1) ⟨[], 0⟩).state.log,
        e.status = "running")
    ∧ (∀ e ∈ (ActivityFromFunction "w" "f" demoFail (Value.num 1) ⟨[], 0⟩).state.log,
        e.status ≠ "failed") := by
  decide

/-- C5 (amended): on a cache miss whose underlying operation fails, the
interceptor leaves the pushed history entry in status `"running"` (the
code has no failure branch and never records a `"failed"` status) and
propagates the error to the workflow body as an ordinary step error. -/
theorem c5_step_failure_stays_running :
    ∀ (wid fn : String) (f : Value → Except Value Value) (input : Value) (s : StepState)
      (err : Value),
      getCachedResult s.log s.seq fn = Except.ok Value.undef →
      f input = Except.error err →
      ActivityFromFunction wid fn f input s =
        ⟨⟨s.log ++ [⟨wid, fn, "running", input, Value.undef⟩], s.seq + 1⟩,
         Except.error (JsError.stepError err), [s.seq], []⟩ :=
  fun wid fn f input s err hmiss herr =>
    activity_miss_err wid fn f input s err hmiss herr

/-- Witness for C5's amended theorem at the failing demo activity. -/
theorem c5_witness :
    ActivityFromFunction "w" "f" demoFail (Value.num 1) ⟨[], 0⟩ =
      ⟨⟨[⟨"w", "f", "running", Value.num 1, Value.undef⟩], 1⟩,
       Except.error (JsError.stepError (Value.str "boom")), [0], []⟩ :=
  c5_step_failure_stays_running "w" "f" demoFail (Value.num 1) ⟨[], 0⟩
    (Value.str "boom") rfl rfl

/-- C6, counterexample: the driver persists nothing when the body
returns normally and nothing when it fails with an ordinary error —
only the suspension boundary saves the log, refuting the claim that all
three boundaries persist. -/
theorem c6_counterexample :
    passBoundaryAction PassOutcome.completed = none
    ∧ passBoundaryAction (PassOutcome.failed (JsError.stepError (Value.str "boom"))) =
        some DriverAction.logErrorOnly
    ∧ DriverAction.logErrorOnly ≠ DriverAction.persistAndExit := by
  decide

/-- C6 (amended): the driver persists the log only at the suspension
boundary, where it saves the history file and exits cleanly; on normal
return no handler runs at all (no persistence, no Completed marking),
and on any other error the handler only logs it (no persistence, no
Failed marking). -/
theorem c6_persist_only_on_suspension :
    passBoundaryAction PassOutcome.suspended = some DriverAction.persistAndExit
    ∧ passBoundaryAction PassOutcome.completed = none
    ∧ (∀ a b, passBoundaryAction (PassOutcome.failed (JsError.nameMismatch a b)) =
        some DriverAction.logErrorOnly)
    ∧ (∀ v, passBoundaryAction (PassOutcome.failed (JsError.stepError v)) =
        some DriverAction.logErrorOnly) :=
  ⟨rfl, rfl, fun _ _ => rfl, fun _ => rfl⟩

/-- C7, counterexample: a one-step workflow whose operation returns
`undefined` completes on Start, yet the next Resume invokes the
operation again (nonempty trace) and appends to the log, so Resume after
completion is not always free of execution and mutation. -/
theorem c7_counterexample :
    (runPass "w" 0 wU ⟨[], 0⟩).outcome = PassOutcome.completed
    ∧ (runPass "w" 0 wU ⟨(runPass "w" 0 wU ⟨[], 0⟩).state.log, 0⟩).trace ≠ []
    ∧ (runPass "w" 0 wU ⟨(runPass "w" 0 wU ⟨[], 0⟩).state.log, 0⟩).state.log ≠
        (runPass "w" 0 wU ⟨[], 0⟩).state.log := by
  decide

/-- C7 (amended): when the log records one completed, name-matching,
non-`undefined`-output entry per step of the workflow — as a completed
run of a workflow with well-behaved operations leaves it — every further
Resume pass executes no operation, registers no wake, and returns the
log unchanged; repeating Resume is therefore idempotent on the log. -/
theorem c7_completed_resume_idempotent :
    ∀ (wid : String) (now : Int) (w : List WStep) (log : List HistoryEntry),
      List.Forall₂ matchesEntry w log →
      runPass wid now w ⟨log, 0⟩ =
        ⟨⟨log, log.length⟩, PassOutcome.completed, [], []⟩ := by
  intro wid now w log hm
  have h := runPass_skip wid now w [] ⟨log, 0⟩
    (by simpa using (List.Forall₂.length_eq hm).symm) (by simpa using hm)
  rw [List.append_nil] at h
  rw [h]
  rfl

/-- Witness for C7: resuming over the scenario's completed three-entry
log performs nothing. -/
theorem c7_witness :
    runPass "wf" 9000 demoW ⟨demoLogFull, 0⟩ =
      ⟨⟨demoLogFull, 3⟩, PassOutcome.completed, [], []⟩ :=
  c7_completed_resume_idempotent "wf" 9000 demoW demoLogFull
    (List.Forall₂.cons ⟨rfl, rfl, by decide⟩
      (List.Forall₂.cons ⟨rfl, rfl, by decide⟩
        (List.Forall₂.cons ⟨rfl, rfl, by decide⟩ List.Forall₂.nil)))

/-- C8: every activity or timer interceptor call that does not throw the
name-mismatch error — in particular every call that returns a value or
raises the suspension signal — increments the cursor by exactly one. -/
theorem c8_cursor_incremented_once :
    ∀ (wid fn : String) (f : Value → Except Value Value) (input : Value)
      (now ms : Int) (s : StepState),
      (isNameMismatch (ActivityFromFunction wid fn f input s).result = false →
        (ActivityFromFunction wid fn f input s).state.seq = s.seq + 1)
      ∧ (isNameMismatch (workflowSleep wid now ms s).result = false →
        (workflowSleep wid now ms s).state.seq = s.seq + 1) :=
  fun wid fn f input now ms s =>
    ⟨activity_seq_increment wid fn f input s, sleep_seq_increment wid now ms s⟩

/-- Witness for C8 at a fresh activity call and a fresh timer call. -/
theorem c8_witness :
    (ActivityFromFunction "wf" "stepA" demoF (Value.num 1) ⟨[], 0⟩).state.seq = 0 + 1
    ∧ (workflowSleep "wf" 0 3000 ⟨[], 0⟩).state.seq = 0 + 1 :=
  ⟨(c8_cursor_incremented_once "wf" "stepA" demoF (Value.num 1) 0 3000 ⟨[], 0⟩).1 rfl,
   (c8_cursor_incremented_once "wf" "stepA" demoF (Value.num 1) 0 3000 ⟨[], 0⟩).2 rfl⟩

/-- C9, counterexample: a cache hit performs zero appends or mutations
to the log — the post-call log is the pre-call log — while the claim
demands exactly one append or mutation per call, cache hits included. -/
theorem c9_counterexample :
    (ActivityFromFunction "wf" "stepA" demoF (Value.num 1) ⟨[entryA], 0⟩).state.log =
      [entryA]
    ∧ (ActivityFromFunction "wf" "stepA" demoF (Value.num 1) ⟨[entryA], 0⟩).result =
        Except.ok (Value.num 2)
    ∧ (ActivityFromFunction "wf" "stepA" demoF (Value.num 1) ⟨[entryA], 0⟩).trace = [] := by
  decide

/-- C9 (amended): every interceptor call either leaves the log unchanged
and invokes nothing (cache hit or mismatch error), or appends exactly
one entry and invokes the underlying operation exactly once, at the
current position, and only when the cache lookup returned `undefined`
(cache miss). -/
theorem c9_frame :
    ∀ (wid fn : String) (f : Value → Except Value Value) (input : Value) (s : StepState),
      ((ActivityFromFunction wid fn f input s).state.log = s.log
        ∧ (ActivityFromFunction wid fn f input s).trace = [])
      ∨ (∃ e, (ActivityFromFunction wid fn f input s).state.log = s.log ++ [e]
          ∧ (ActivityFromFunction wid fn f input s).trace = [s.seq]
          ∧ getCachedResult s.log s.seq fn = Except.ok Value.undef) := by
  intro wid fn f input s
  cases hc : getCachedResult s.log s.seq fn with
  | error e =>
    left
    simp [ActivityFromFunction, hc]
  | ok v =>
    by_cases hv : v = Value.undef
    · right
      have hcu : getCachedResult s.log s.seq fn = Except.ok Value.undef := by
        rw [hc, hv]
      cases hf : f input with
      | ok ret =>
        rw [activity_miss_ok wid fn f input s ret hcu hf]
        exact ⟨⟨wid, fn, "completed", input, ret⟩, rfl, rfl, by rw [hv]⟩
      | error err =>
        rw [activity_miss_err wid fn f input s err hcu hf]
        exact ⟨⟨wid, fn, "running", input, Value.undef⟩, rfl, rfl, by rw [hv]⟩
    · left
      simp [ActivityFromFunction, hc, ne_eq, hv, not_false_eq_true, if_true]

/-- C10: a completed, name-matching entry whose recorded output is
`undefined` is indistinguishable from an absent cache entry, so replay
at that position re-invokes the underlying operation and appends a new
history entry. -/
theorem c10_undefined_output_reexecutes :
    ∀ (wid fn : String) (f : Value → Except Value Value) (input : Value) (s : StepState)
      (e : HistoryEntry), s.log.get? s.seq = some e → e.status = "completed" →
      e.name = fn → e.output = Value.undef →
      (∃ e2, (ActivityFromFunction wid fn f input s).state.log = s.log ++ [e2])
      ∧ (ActivityFromFunction wid fn f input s).trace = [s.seq] := by
  intro wid fn f input s e he hst hn ho
  have hc : getCachedResult s.log s.seq fn = Except.ok Value.undef := by
    rw [getCachedResult_hit s.log s.seq fn e he hst hn, ho]
  cases hf : f input with
  | ok ret =>
    rw [activity_miss_ok wid fn f input s ret hc hf]
    exact ⟨⟨⟨wid, fn, "completed", input, ret⟩, rfl⟩, rfl⟩
  | error err =>
    rw [activity_miss_err wid fn f input s err hc hf]
    exact ⟨⟨⟨wid, fn, "running", input, Value.undef⟩, rfl⟩, rfl⟩

/-- Witness for C10: replaying over the completed-with-`undefined`
entry re-invokes the operation and appends. -/
theorem c10_witness :
    (∃ e2, (ActivityFromFunction "w" "u" demoUndef Value.null ⟨[entryU], 0⟩).state.log =
      [entryU] ++ [e2])
    ∧ (ActivityFromFunction "w" "u" demoUndef Value.null ⟨[entryU], 0⟩).trace = [0] :=
  c10_undefined_output_reexecutes "w" "u" demoUndef Value.null ⟨[entryU], 0⟩ entryU
    rfl rfl rfl rfl

end TemporalLite
